import Mathlib

/-!
Verification of the asynchronous job-processing core of the File-processing-API
repository (src/services/processingQueue.js), shallowly embedded in Lean 4.

The ProcessingQueue class runs on the single-threaded Node.js event loop, so its
behaviour is a deterministic state machine driven by externally ordered events:
job submissions (addJob), settlement of the promise awaited inside processNext
(the await of executeJob), job removal, queue clearing, and the setImmediate
callback scheduled at the end of processNext.  Every async function runs
synchronously until its first await, so addJob runs the synchronous prefix of
processNext (up to the first await of executeJob) before returning, and the
continuation after that await runs when the awaited promise settles.

Machine-level details modelled:
  - job ids (job_TIMESTAMP_random strings) are modelled by a fresh counter, so
    ids are assigned in submission order and are unique;
  - the opaque result object returned by a collaborator routine is modelled as
    a natural number, and a collaborator outcome is an Except String Nat chosen
    by the environment at settlement time;
  - Array.prototype.sort under Node 18 is a stable sort (required by ES2019);
    any stable sort for the comparator priorityOrder b - priorityOrder a
    produces the same list, so it is modelled by List.insertionSort with the
    non-strict rank-descending relation, which is stable;
  - the fields done, dispatched and collabCalls of QueueState are ghost
    observation fields recording settled job records, the order in which jobs
    were taken off the pending collection, and which jobs reached a
    collaborator (processor) routine; the remaining fields are the instance
    fields of the ProcessingQueue class.
-/

namespace FileProcAPI

/-- Job priority: an ordered enumeration, high over normal over low. -/
inductive Priority where
  | high
  | normal
  | low
deriving DecidableEq, Repr

/-- Job category (the field named type in the source): image, document or media. -/
inductive Category where
  | image
  | document
  | media
deriving DecidableEq, Repr

/-- Job lifecycle status, exactly the status strings used by the source. -/
inductive Status where
  | queued
  | processing
  | completed
  | failed
deriving DecidableEq, Repr

/-- A job record as built by addJob, with the mutable lifecycle fields. -/
structure Job where
  id : Nat
  jobType : Category
  operation : String
  priority : Priority
  status : Status
  result : Option Nat
  error : Option String
deriving DecidableEq, Repr

/-- The priorityOrder lookup table of the sort comparator in processNext:
high maps to 3, normal to 2, low to 1. -/
def priorityOrder : Priority → Nat
  | .high => 3
  | .normal => 2
  | .low => 1

/-- The total preorder induced by the comparator (a, b) => priorityOrder b -
priorityOrder a used by this.queue.sort: a comes no later than b exactly when
the rank of b is at most the rank of a (descending by priority). -/
def jobLe (a b : Job) : Prop := priorityOrder b.priority ≤ priorityOrder a.priority

instance : DecidableRel jobLe := fun a b =>
  inferInstanceAs (Decidable (priorityOrder b.priority ≤ priorityOrder a.priority))

instance : IsTotal Job jobLe :=
  ⟨fun a b => (Nat.le_total (priorityOrder b.priority) (priorityOrder a.priority))⟩

instance : IsTrans Job jobLe :=
  ⟨fun _ _ _ h1 h2 => Nat.le_trans h2 h1⟩

/-- The sort performed at the top of processNext: this.queue.sort with the
priority-descending comparator.  Array.prototype.sort is stable (ES2019, Node
18 V8), and every stable sort for the same total preorder yields the same
output, so the stable List.insertionSort is an exact model. -/
def sortQueue (l : List Job) : List Job := List.insertionSort jobLe l

/-- processImageJob (ignoring the processor argument): the switch over the
operation name.  A supported operation delegates to the collaborator routine,
whose outcome the environment supplies as collab; an unsupported operation
throws before any collaborator call. -/
def processImageJob (collab : Except String Nat) (operation : String) :
    Except String Nat :=
  if operation = "resize" then collab
  else if operation = "convert" then collab
  else if operation = "compress" then collab
  else .error ("Unsupported image operation: " ++ operation)

/-- processDocumentJob: the switch over the operation name for documents. -/
def processDocumentJob (collab : Except String Nat) (operation : String) :
    Except String Nat :=
  if operation = "convert" then collab
  else if operation = "extract" then collab
  else .error ("Unsupported document operation: " ++ operation)

/-- processMediaJob: only the extract operation is supported for media. -/
def processMediaJob (collab : Except String Nat) (operation : String) :
    Except String Nat :=
  if operation = "extract" then collab
  else .error ("Unsupported media operation: " ++ operation)

/-- executeJob: dispatch on the job category (job.type in the source) to the
per-category routine.  The collab argument is the outcome of the collaborator
routine call, supplied by the environment; for combinations that throw before
reaching a collaborator the value of collab is ignored. -/
def executeJob (job : Job) (collab : Except String Nat) : Except String Nat :=
  match job.jobType with
  | .image => processImageJob collab job.operation
  | .document => processDocumentJob collab job.operation
  | .media => processMediaJob collab job.operation

/-- Whether executing the job reaches a collaborator (processor) routine, read
off the switch statements of executeJob and the per-category routines. -/
def callsCollaborator (job : Job) : Bool :=
  match job.jobType with
  | .image =>
      job.operation = "resize" ∨ job.operation = "convert" ∨
        job.operation = "compress"
  | .document => job.operation = "convert" ∨ job.operation = "extract"
  | .media => job.operation = "extract"

/-- The error message thrown by the per-category routine when the operation
name matches none of its cases: the default arm of each switch names the
category and the unsupported operation. -/
def unsupportedMessage (j : Job) : String :=
  match j.jobType with
  | .image => "Unsupported image operation: " ++ j.operation
  | .document => "Unsupported document operation: " ++ j.operation
  | .media => "Unsupported media operation: " ++ j.operation

/-- The state of a ProcessingQueue instance: the instance fields of the class
(queue, processing, maxConcurrent, activeJobs) together with the suspension
point of the dispatch loop (current, the job whose executeJob promise the while
loop is awaiting), whether a setImmediate(processNext) callback is pending, a
fresh-id counter, and ghost observation fields (done, dispatched, collabCalls). -/
structure QueueState where
  queue : List Job
  processing : Bool
  maxConcurrent : Nat
  activeJobs : Nat
  current : Option Job
  pendingDispatch : Bool
  nextId : Nat
  done : List Job
  dispatched : List Nat
  collabCalls : List Nat
deriving DecidableEq, Repr

/-- The constructor: empty queue, not processing, maxConcurrent = 2 (the
source comment reads: process max 2 files at once), no active jobs. -/
def initState : QueueState :=
  { queue := []
    processing := false
    maxConcurrent := 2
    activeJobs := 0
    current := none
    pendingDispatch := false
    nextId := 0
    done := []
    dispatched := []
    collabCalls := [] }

/-- One iteration start of the while loop of processNext: shift the head job
off the queue, increment activeJobs, set its status to processing, and begin
executing it (recording the dispatch and, if the operation reaches a
collaborator routine, the collaborator call).  Execution then suspends at the
await of executeJob, recorded in the current field. -/
def startJob (s : QueueState) (j : Job) (rest : List Job) : QueueState :=
  { s with
    queue := rest
    activeJobs := s.activeJobs + 1
    current := some { j with status := .processing }
    dispatched := s.dispatched ++ [j.id]
    collabCalls :=
      if callsCollaborator j then s.collabCalls ++ [j.id] else s.collabCalls }

/-- The synchronous prefix of processNext: the guard (return if a dispatch is
in progress, the concurrency ceiling is reached, or the queue is empty), then
set the processing flag, sort the queue by priority, and run the first loop
iteration up to the await of executeJob.  The guard guarantees the loop
condition holds on entry, so exactly one iteration starts before suspending. -/
def processNextSync (s : QueueState) : QueueState :=
  if s.processing = true ∨ s.maxConcurrent ≤ s.activeJobs ∨ s.queue = [] then s
  else
    match sortQueue s.queue with
    | [] => s
    | j :: rest => startJob { s with processing := true } j rest

/-- addJob: build the job record with a fresh id, status queued, priority
defaulted to normal, push it onto the queue, and call processNext, which runs
synchronously up to its first await before addJob returns.  Returns the new
state and the assigned job id. -/
def addJob (s : QueueState) (jobType : Category) (operation : String)
    (priority : Option Priority) : QueueState × Nat :=
  let job : Job :=
    { id := s.nextId
      jobType := jobType
      operation := operation
      priority := priority.getD .normal
      status := .queued
      result := none
      error := none }
  (processNextSync { s with queue := s.queue ++ [job], nextId := s.nextId + 1 },
    job.id)

/-- The record stored for a settled job (the try and catch blocks of the loop
body): completed with the result on fulfilment, failed with the error message
on rejection. -/
def settledJob (j : Job) (collab : Except String Nat) : Job :=
  match executeJob j collab with
  | .ok r => { j with status := .completed, result := some r }
  | .error e => { j with status := .failed, error := some e }

/-- Settlement of the promise awaited by the dispatch loop, with the
environment-chosen collaborator outcome collab: the job record is updated by
settledJob, activeJobs is decremented (the finally block) and the while loop
continues: if the queue is non-empty and there is headroom, the next job is
shifted and started, otherwise the loop exits, the processing flag is cleared,
and, if jobs remain queued, a setImmediate(processNext) is scheduled. -/
def settle (s : QueueState) (collab : Except String Nat) : QueueState :=
  match s.current with
  | none => s
  | some j =>
    let s1 : QueueState :=
      { s with
        current := none
        done := settledJob j collab :: s.done
        activeJobs := s.activeJobs - 1 }
    match s1.queue with
    | [] => { s1 with processing := false }
    | j2 :: rest =>
        if s1.activeJobs < s1.maxConcurrent then startJob s1 j2 rest
        else { s1 with processing := false, pendingDispatch := true }

/-- The setImmediate(processNext) callback firing: runs processNext from the
top (its synchronous prefix) if one was scheduled. -/
def tick (s : QueueState) : QueueState :=
  if s.pendingDispatch then processNextSync { s with pendingDispatch := false }
  else s

/-- removeJob: findIndex over the queue by id; if found, splice the job out and
return it, otherwise return null and leave the state untouched. -/
def removeJob (s : QueueState) (jobId : Nat) : QueueState × Option Job :=
  match s.queue.find? (fun j => j.id == jobId) with
  | some j => ({ s with queue := s.queue.eraseP (fun j => j.id == jobId) }, some j)
  | none => (s, none)

/-- clearQueue: record the pending count, replace the queue by the empty array,
and return the count of discarded jobs. -/
def clearQueue (s : QueueState) : QueueState × Nat :=
  ({ s with queue := [] }, s.queue.length)

/-- The value returned by getJobStatus: either the not_found marker object or a
snapshot of the job record found in the queue. -/
inductive StatusReport where
  | notFound
  | report (id : Nat) (status : Status) (operation : String)
      (error : Option String) (result : Option Nat)
deriving DecidableEq, Repr

/-- getJobStatus: find the job by id in this.queue only; a job not in the
pending collection reports not_found. -/
def getJobStatus (s : QueueState) (jobId : Nat) : StatusReport :=
  match s.queue.find? (fun j => j.id == jobId) with
  | none => .notFound
  | some j => .report j.id j.status j.operation j.error j.result

/-- The aggregate snapshot returned by getQueueStatus. -/
structure QueueSnapshot where
  queued : Nat
  processing : Nat
  total : Nat
  maxConcurrent : Nat
deriving DecidableEq, Repr

/-- getQueueStatus: counts of queued and active jobs plus the ceiling. -/
def getQueueStatus (s : QueueState) : QueueSnapshot :=
  { queued := s.queue.length
    processing := s.activeJobs
    total := s.queue.length + s.activeJobs
    maxConcurrent := s.maxConcurrent }

/-- The external events that drive the state machine, in the order the Node
event loop delivers them. -/
inductive Event where
  | submit (jobType : Category) (operation : String) (priority : Option Priority)
  | settleJob (collab : Except String Nat)
  | removeEv (jobId : Nat)
  | clearEv
  | tickEv

/-- One step of the machine. -/
def step (s : QueueState) : Event → QueueState
  | .submit t op p => (addJob s t op p).1
  | .settleJob c => settle s c
  | .removeEv jid => (removeJob s jid).1
  | .clearEv => (clearQueue s).1
  | .tickEv => tick s

/-- Running a list of events from the freshly constructed queue. -/
def run (es : List Event) : QueueState := es.foldl step initState

/-- A state is reachable when some event sequence produces it. -/
def Reachable (s : QueueState) : Prop := ∃ es, run es = s

/-- Every job record the instance knows about: pending jobs, the job being
executed, and settled jobs. -/
def allJobs (s : QueueState) : List Job := s.queue ++ s.current.toList ++ s.done

/-- The number of job records whose status is processing. -/
def processingCount (s : QueueState) : Nat :=
  (allJobs s).countP (fun j => decide (j.status = Status.processing))

/-- The reachability invariant of the queue state machine. -/
structure Inv (s : QueueState) : Prop where
  flag_current : s.processing = s.current.isSome
  active_one : s.activeJobs = if s.current.isSome then 1 else 0
  idle_empty : s.processing = false → s.queue = []
  queue_queued : ∀ j ∈ s.queue, j.status = Status.queued
  queue_fresh : ∀ j ∈ s.queue, j.result = none ∧ j.error = none
  current_proc : ∀ j, s.current = some j → j.status = Status.processing
  current_fresh : ∀ j, s.current = some j → j.result = none ∧ j.error = none
  done_terminal : ∀ j ∈ s.done, j.status = Status.completed ∨ j.status = Status.failed
  no_tick : s.pendingDispatch = false
  maxc : s.maxConcurrent = 2
  queue_pairwise : (s.queue.map Job.id).Pairwise (· < ·)
  queue_lt_next : ∀ j ∈ s.queue, j.id < s.nextId
  disp_lt_queue : ∀ i ∈ s.dispatched, ∀ j ∈ s.queue, i < j.id
  disp_pairwise : s.dispatched.Pairwise (· < ·)
  disp_lt_next : ∀ i ∈ s.dispatched, i < s.nextId
  current_disp : ∀ j, s.current = some j → j.id ∈ s.dispatched
  done_disp : ∀ j ∈ s.done, j.id ∈ s.dispatched

/-- The job record addJob builds before pushing it. -/
def pushedJob (s : QueueState) (t : Category) (op : String)
    (p : Option Priority) : Job :=
  { id := s.nextId
    jobType := t
    operation := op
    priority := p.getD .normal
    status := .queued
    result := none
    error := none }

/-- The state right after addJob pushes the new record, before processNext. -/
def pushedState (s : QueueState) (t : Category) (op : String)
    (p : Option Priority) : QueueState :=
  { s with queue := s.queue ++ [pushedJob s t op p], nextId := s.nextId + 1 }

def c1Trace : List Event :=
  [.submit .image "resize" none, .submit .image "resize" none,
   .submit .image "resize" none]

def c2Trace : List Event := [.submit .image "resize" none]

def twoJobsTrace : List Event :=
  [.submit .image "resize" none, .submit .image "resize" none]

def c3TracePrefix : List Event :=
  [.submit .image "resize" (some .normal),
   .submit .image "resize" (some .normal),
   .submit .image "resize" (some .high)]

def c3Trace : List Event := c3TracePrefix ++ [.settleJob (.ok 0)]

def docResizeTrace : List Event := [.submit .document "resize" none]

/-- The record of the first submitted image resize job once dispatch has
started it. -/
def imgResizeStart : Job :=
  { id := 0
    jobType := .image
    operation := "resize"
    priority := .normal
    status := .processing
    result := none
    error := none }

/-- The record of the first submitted document resize job once dispatch has
started it. -/
def docResizeStart : Job :=
  { id := 0
    jobType := .document
    operation := "resize"
    priority := .normal
    status := .processing
    result := none
    error := none }

/-- The second submitted job of c3Trace, a normal priority job, while queued. -/
def jobNormal1Queued : Job :=
  { id := 1
    jobType := .image
    operation := "resize"
    priority := .normal
    status := .queued
    result := none
    error := none }

/-- The third submitted job of c3Trace, a high priority job, while queued. -/
def jobHigh2Queued : Job :=
  { id := 2
    jobType := .image
    operation := "resize"
    priority := .high
    status := .queued
    result := none
    error := none }

/-- The second submitted job of c3Trace once dispatch has started it. -/
def jobNormal1Processing : Job := { jobNormal1Queued with status := .processing }

end FileProcAPI

namespace FileProcAPI

/-- Reduction lemma: the guard of processNext returns immediately when a
dispatch is in progress, the ceiling is reached, or the queue is empty. -/
theorem processNextSync_guard (s : QueueState)
    (h : s.processing = true ∨ s.maxConcurrent ≤ s.activeJobs ∨ s.queue = []) :
    processNextSync s = s := by
  unfold processNextSync
  rw [if_pos h]

/-- Sorting a one-element queue is the identity. -/
theorem sortQueue_singleton (j : Job) : sortQueue [j] = [j] := rfl

/-- Reduction lemma: processNext on a one-element queue with the guard passing
starts that job. -/
theorem processNextSync_single (s : QueueState) (j : Job)
    (hp : s.processing = false) (ha : s.activeJobs < s.maxConcurrent)
    (hq : s.queue = [j]) :
    processNextSync s = startJob { s with processing := true } j [] := by
  unfold processNextSync
  rw [if_neg]
  · rw [hq, sortQueue_singleton]
  · push_neg
    refine ⟨by simp [hp], by omega, by simp [hq]⟩

/-- The freshly constructed queue satisfies the invariant. -/
theorem inv_init : Inv initState := by
  constructor <;> simp [initState]

end FileProcAPI

namespace FileProcAPI

/-- addJob unfolded: push the fresh record, run processNext, return the id. -/
theorem addJob_eq (s : QueueState) (t : Category) (op : String)
    (p : Option Priority) :
    addJob s t op p =
      (processNextSync
        { s with
          queue := s.queue ++
            [{ id := s.nextId, jobType := t, operation := op,
               priority := p.getD .normal, status := .queued, result := none,
               error := none }],
          nextId := s.nextId + 1 },
        s.nextId) := rfl

/-- Settlement with no job being awaited changes nothing. -/
theorem settle_none (s : QueueState) (c : Except String Nat)
    (h : s.current = none) : settle s c = s := by
  unfold settle
  rw [h]

/-- Settlement with an empty queue: record the settled job, decrement
activeJobs, exit the loop and clear the processing flag. -/
theorem settle_some_nil (s : QueueState) (c : Except String Nat) (j : Job)
    (hc : s.current = some j) (hq : s.queue = []) :
    settle s c =
      { s with
        current := none
        done := settledJob j c :: s.done
        activeJobs := s.activeJobs - 1
        processing := false } := by
  unfold settle
  rw [hc]
  simp only [hq]

/-- Settlement with a non-empty queue and headroom after the decrement: record
the settled job, decrement activeJobs, and start the head job of the queue. -/
theorem settle_some_cons (s : QueueState) (c : Except String Nat) (j j2 : Job)
    (rest : List Job) (hc : s.current = some j) (hq : s.queue = j2 :: rest)
    (ha : s.activeJobs - 1 < s.maxConcurrent) :
    settle s c =
      startJob
        { s with
          current := none
          done := settledJob j c :: s.done
          activeJobs := s.activeJobs - 1 }
        j2 rest := by
  unfold settle
  rw [hc]
  simp only [hq, if_pos ha]

end FileProcAPI

namespace FileProcAPI

/-- The state component of addJob is processNext applied to the pushed state. -/
theorem addJob_fst (s : QueueState) (t : Category) (op : String)
    (p : Option Priority) :
    (addJob s t op p).1 = processNextSync (pushedState s t op p) := rfl

/-- The id returned by addJob is the fresh counter value. -/
theorem addJob_snd (s : QueueState) (t : Category) (op : String)
    (p : Option Priority) : (addJob s t op p).2 = s.nextId := rfl

/-- addJob on a busy dispatcher only pushes the record. -/
theorem addJob_busy (s : QueueState) (t : Category) (op : String)
    (p : Option Priority) (hp : s.processing = true) :
    (addJob s t op p).1 = pushedState s t op p := by
  rw [addJob_fst]
  exact processNextSync_guard (pushedState s t op p) (Or.inl hp)

/-- addJob on an idle dispatcher with an empty queue (which the invariant
shows is the only idle shape) immediately dispatches the new job. -/
theorem addJob_idle (s : QueueState) (t : Category) (op : String)
    (p : Option Priority) (hp : s.processing = false) (hq : s.queue = [])
    (ha : s.activeJobs < s.maxConcurrent) :
    (addJob s t op p).1 =
      { queue := []
        processing := true
        maxConcurrent := s.maxConcurrent
        activeJobs := s.activeJobs + 1
        current := some
          { id := s.nextId, jobType := t, operation := op,
            priority := p.getD .normal, status := .processing, result := none,
            error := none }
        pendingDispatch := s.pendingDispatch
        nextId := s.nextId + 1
        done := s.done
        dispatched := s.dispatched ++ [s.nextId]
        collabCalls :=
          if callsCollaborator (pushedJob s t op p) then
            s.collabCalls ++ [s.nextId]
          else s.collabCalls } := by
  rw [addJob_fst,
    processNextSync_single (pushedState s t op p) (pushedJob s t op p) hp ha
      (by simp [pushedState, hq])]
  rfl

end FileProcAPI

namespace FileProcAPI

/-- addJob preserves the invariant. -/
theorem inv_addJob (s : QueueState) (t : Category) (op : String)
    (p : Option Priority) (h : Inv s) : Inv (addJob s t op p).1 := by
  by_cases hp : s.processing = true
  · rw [addJob_busy s t op p hp]
    exact
      { flag_current := h.flag_current
        active_one := h.active_one
        idle_empty := by
          intro hf
          have hf2 : s.processing = false := hf
          rw [hf2] at hp
          cases hp
        queue_queued := by
          intro j hj
          rcases List.mem_append.mp hj with h1 | h1
          · exact h.queue_queued j h1
          · simp only [List.mem_singleton] at h1
            subst h1
            rfl
        queue_fresh := by
          intro j hj
          rcases List.mem_append.mp hj with h1 | h1
          · exact h.queue_fresh j h1
          · simp only [List.mem_singleton] at h1
            subst h1
            exact ⟨rfl, rfl⟩
        current_proc := h.current_proc
        current_fresh := h.current_fresh
        done_terminal := h.done_terminal
        no_tick := h.no_tick
        maxc := h.maxc
        queue_pairwise := by
          show ((s.queue ++ [pushedJob s t op p]).map Job.id).Pairwise (· < ·)
          rw [List.map_append, List.pairwise_append]
          refine ⟨h.queue_pairwise, by simp, ?_⟩
          intro a ha b hb
          simp only [List.map_cons, List.map_nil, List.mem_singleton] at hb
          subst hb
          obtain ⟨j, hj, rfl⟩ := List.mem_map.mp ha
          exact h.queue_lt_next j hj
        queue_lt_next := by
          intro j hj
          rcases List.mem_append.mp hj with h1 | h1
          · exact Nat.lt_trans (h.queue_lt_next j h1) (Nat.lt_succ_self _)
          · simp only [List.mem_singleton] at h1
            subst h1
            exact Nat.lt_succ_self _
        disp_lt_queue := by
          intro i hi j hj
          rcases List.mem_append.mp hj with h1 | h1
          · exact h.disp_lt_queue i hi j h1
          · simp only [List.mem_singleton] at h1
            subst h1
            exact h.disp_lt_next i hi
        disp_pairwise := h.disp_pairwise
        disp_lt_next := fun i hi =>
          Nat.lt_trans (h.disp_lt_next i hi) (Nat.lt_succ_self _)
        current_disp := h.current_disp
        done_disp := h.done_disp }
  · have hp0 : s.processing = false := by
      revert hp
      cases s.processing <;> simp
    have hq : s.queue = [] := h.idle_empty hp0
    have hcur : s.current = none := by
      have hfc := h.flag_current
      rw [hp0] at hfc
      cases hc : s.current with
      | none => rfl
      | some j =>
          rw [hc] at hfc
          simp at hfc
    have hact : s.activeJobs = 0 := by
      rw [h.active_one, hcur]
      rfl
    rw [addJob_idle s t op p hp0 hq (by simp [hact, h.maxc])]
    exact
      { flag_current := rfl
        active_one := by simp [hact]
        idle_empty := by intro hf; cases hf
        queue_queued := by intro j hj; cases hj
        queue_fresh := by intro j hj; cases hj
        current_proc := by
          intro j hj
          injection hj with hj
          subst hj
          rfl
        current_fresh := by
          intro j hj
          injection hj with hj
          subst hj
          exact ⟨rfl, rfl⟩
        done_terminal := h.done_terminal
        no_tick := h.no_tick
        maxc := h.maxc
        queue_pairwise := by simp
        queue_lt_next := by intro j hj; cases hj
        disp_lt_queue := by intro i hi j hj; cases hj
        disp_pairwise := by
          rw [List.pairwise_append]
          exact ⟨h.disp_pairwise, by simp, by
            intro a ha b hb
            simp only [List.mem_singleton] at hb
            subst hb
            exact h.disp_lt_next a ha⟩
        disp_lt_next := by
          intro i hi
          simp only [List.mem_append, List.mem_singleton] at hi
          rcases hi with h1 | h1
          · exact Nat.lt_trans (h.disp_lt_next i h1) (Nat.lt_succ_self _)
          · subst h1
            exact Nat.lt_succ_self _
        current_disp := by
          intro j hj
          injection hj with hj
          subst hj
          simp
        done_disp := fun j hj => List.mem_append_left _ (h.done_disp j hj) }

end FileProcAPI

namespace FileProcAPI

/-- Settling does not change the job id. -/
theorem settledJob_id (j : Job) (c : Except String Nat) :
    (settledJob j c).id = j.id := by
  unfold settledJob
  cases executeJob j c with
  | error e => rfl
  | ok r => rfl

/-- A settled job is in a terminal status. -/
theorem settledJob_status (j : Job) (c : Except String Nat) :
    (settledJob j c).status = Status.completed ∨
      (settledJob j c).status = Status.failed := by
  unfold settledJob
  cases executeJob j c with
  | error e => exact Or.inr rfl
  | ok r => exact Or.inl rfl

/-- settle preserves the invariant. -/
theorem inv_settle (s : QueueState) (c : Except String Nat) (h : Inv s) :
    Inv (settle s c) := by
  cases hcur : s.current with
  | none => rw [settle_none s c hcur]; exact h
  | some j =>
    have hpt : s.processing = true := by
      rw [h.flag_current, hcur]
      rfl
    have hact : s.activeJobs = 1 := by
      rw [h.active_one, hcur]
      rfl
    cases hq : s.queue with
    | nil =>
      rw [settle_some_nil s c j hcur hq]
      exact
        { flag_current := rfl
          active_one := by simp [hact]
          idle_empty := fun _ => hq
          queue_queued := by
            intro k hk
            exact h.queue_queued k hk
          queue_fresh := by
            intro k hk
            exact h.queue_fresh k hk
          current_proc := by intro k hk; cases hk
          current_fresh := by intro k hk; cases hk
          done_terminal := by
            intro k hk
            rcases List.mem_cons.mp hk with h1 | h1
            · subst h1
              exact settledJob_status j c
            · exact h.done_terminal k h1
          no_tick := h.no_tick
          maxc := h.maxc
          queue_pairwise := h.queue_pairwise
          queue_lt_next := h.queue_lt_next
          disp_lt_queue := h.disp_lt_queue
          disp_pairwise := h.disp_pairwise
          disp_lt_next := h.disp_lt_next
          current_disp := by intro k hk; cases hk
          done_disp := by
            intro k hk
            rcases List.mem_cons.mp hk with h1 | h1
            · subst h1
              rw [settledJob_id]
              exact h.current_disp j hcur
            · exact h.done_disp k h1 }
    | cons j2 rest =>
      have hj2mem : j2 ∈ s.queue := by
        rw [hq]
        exact List.mem_cons_self _ _
      have hpw := h.queue_pairwise
      rw [hq, List.map_cons, List.pairwise_cons] at hpw
      rw [settle_some_cons s c j j2 rest hcur hq
        (by rw [hact, h.maxc]; exact Nat.zero_lt_two)]
      exact
        { flag_current := hpt
          active_one := by simp [startJob, hact]
          idle_empty := by
            intro hf
            have hf2 : s.processing = false := hf
            rw [hf2] at hpt
            cases hpt
          queue_queued := by
            intro k hk
            exact h.queue_queued k (by rw [hq]; exact List.mem_cons_of_mem _ hk)
          queue_fresh := by
            intro k hk
            exact h.queue_fresh k (by rw [hq]; exact List.mem_cons_of_mem _ hk)
          current_proc := by
            intro k hk
            injection hk with hk
            subst hk
            rfl
          current_fresh := by
            intro k hk
            injection hk with hk
            subst hk
            exact ⟨(h.queue_fresh j2 hj2mem).1, (h.queue_fresh j2 hj2mem).2⟩
          done_terminal := by
            intro k hk
            rcases List.mem_cons.mp hk with h1 | h1
            · subst h1
              exact settledJob_status j c
            · exact h.done_terminal k h1
          no_tick := h.no_tick
          maxc := h.maxc
          queue_pairwise := hpw.2
          queue_lt_next := by
            intro k hk
            exact h.queue_lt_next k (by rw [hq]; exact List.mem_cons_of_mem _ hk)
          disp_lt_queue := by
            intro i hi k hk
            rcases List.mem_append.mp hi with h1 | h1
            · exact h.disp_lt_queue i h1 k
                (by rw [hq]; exact List.mem_cons_of_mem _ hk)
            · simp only [List.mem_singleton] at h1
              subst h1
              exact hpw.1 k.id (List.mem_map_of_mem Job.id hk)
          disp_pairwise := by
            show List.Pairwise (· < ·) (s.dispatched ++ [j2.id])
            rw [List.pairwise_append]
            refine ⟨h.disp_pairwise, by simp, ?_⟩
            intro a ha b hb
            simp only [List.mem_singleton] at hb
            subst hb
            exact h.disp_lt_queue a ha j2 hj2mem
          disp_lt_next := by
            intro i hi
            rcases List.mem_append.mp hi with h1 | h1
            · exact h.disp_lt_next i h1
            · simp only [List.mem_singleton] at h1
              subst h1
              exact h.queue_lt_next j2 hj2mem
          current_disp := by
            intro k hk
            injection hk with hk
            subst hk
            exact List.mem_append_right _ (List.mem_singleton_self _)
          done_disp := by
            intro k hk
            rcases List.mem_cons.mp hk with h1 | h1
            · subst h1
              rw [settledJob_id]
              exact List.mem_append_left _ (h.current_disp j hcur)
            · exact List.mem_append_left _ (h.done_disp k h1) }

end FileProcAPI

namespace FileProcAPI

/-- The state component of removeJob always equals the state with the first
matching job erased from the queue (erasing nothing when no job matches). -/
theorem removeJob_fst (s : QueueState) (jid : Nat) :
    (removeJob s jid).1 =
      { s with queue := s.queue.eraseP (fun j => j.id == jid) } := by
  unfold removeJob
  cases hf : s.queue.find? (fun j => j.id == jid) with
  | some j => rfl
  | none =>
      have he : s.queue.eraseP (fun j => j.id == jid) = s.queue := by
        apply List.eraseP_of_forall_not
        intro a ha
        simpa using List.find?_eq_none.mp hf a ha
      simp only [he]

/-- removeJob preserves the invariant. -/
theorem inv_removeJob (s : QueueState) (jid : Nat) (h : Inv s) :
    Inv (removeJob s jid).1 := by
  rw [removeJob_fst]
  have hsub : List.Sublist (s.queue.eraseP (fun j => j.id == jid)) s.queue :=
    List.eraseP_sublist _
  exact
    { flag_current := h.flag_current
      active_one := h.active_one
      idle_empty := by
        intro hf
        show s.queue.eraseP (fun j => j.id == jid) = []
        rw [h.idle_empty hf]
        rfl
      queue_queued := fun k hk => h.queue_queued k (hsub.subset hk)
      queue_fresh := fun k hk => h.queue_fresh k (hsub.subset hk)
      current_proc := h.current_proc
      current_fresh := h.current_fresh
      done_terminal := h.done_terminal
      no_tick := h.no_tick
      maxc := h.maxc
      queue_pairwise := h.queue_pairwise.sublist (hsub.map Job.id)
      queue_lt_next := fun k hk => h.queue_lt_next k (hsub.subset hk)
      disp_lt_queue := fun i hi k hk => h.disp_lt_queue i hi k (hsub.subset hk)
      disp_pairwise := h.disp_pairwise
      disp_lt_next := h.disp_lt_next
      current_disp := h.current_disp
      done_disp := h.done_disp }

/-- clearQueue preserves the invariant. -/
theorem inv_clearQueue (s : QueueState) (h : Inv s) : Inv (clearQueue s).1 :=
  { flag_current := h.flag_current
    active_one := h.active_one
    idle_empty := fun _ => rfl
    queue_queued := by intro k hk; cases hk
    queue_fresh := by intro k hk; cases hk
    current_proc := h.current_proc
    current_fresh := h.current_fresh
    done_terminal := h.done_terminal
    no_tick := h.no_tick
    maxc := h.maxc
    queue_pairwise := List.Pairwise.nil
    queue_lt_next := by intro k hk; cases hk
    disp_lt_queue := by intro i hi k hk; cases hk
    disp_pairwise := h.disp_pairwise
    disp_lt_next := h.disp_lt_next
    current_disp := h.current_disp
    done_disp := h.done_disp }

/-- The setImmediate callback is never actually scheduled: with no pending
dispatch, tick is the identity. -/
theorem tick_id (s : QueueState) (h : s.pendingDispatch = false) :
    tick s = s := by
  unfold tick
  rw [h]
  simp

/-- Every event preserves the invariant. -/
theorem inv_step (s : QueueState) (e : Event) (h : Inv s) : Inv (step s e) := by
  cases e with
  | submit t op p => exact inv_addJob s t op p h
  | settleJob c => exact inv_settle s c h
  | removeEv jid => exact inv_removeJob s jid h
  | clearEv => exact inv_clearQueue s h
  | tickEv =>
      show Inv (tick s)
      rw [tick_id s h.no_tick]
      exact h

/-- Folding events preserves the invariant. -/
theorem inv_foldl (s : QueueState) (es : List Event) (h : Inv s) :
    Inv (es.foldl step s) := by
  induction es generalizing s with
  | nil => exact h
  | cons e es ih => exact ih _ (inv_step s e h)

/-- Every run satisfies the invariant. -/
theorem inv_run (es : List Event) : Inv (run es) := inv_foldl initState es inv_init

/-- Every reachable state satisfies the invariant. -/
theorem inv_reachable (s : QueueState) (h : Reachable s) : Inv s := by
  obtain ⟨es, rfl⟩ := h
  exact inv_run es

end FileProcAPI

namespace FileProcAPI

/-- Inserting a job with the priority comparator commutes with filtering a
priority tier: the inserted job lands in front of its own tier and passes only
strictly higher tiers, so each tier keeps its relative order (stability). -/
theorem filter_orderedInsert (p : Priority) (a : Job) (l : List Job) :
    (List.orderedInsert jobLe a l).filter (fun j => decide (j.priority = p)) =
      ((a :: l).filter (fun j => decide (j.priority = p))) := by
  induction l with
  | nil => rfl
  | cons b t ih =>
      by_cases hab : jobLe a b
      · rw [List.orderedInsert_of_le jobLe t hab]
      · have hred : List.orderedInsert jobLe a (b :: t) =
            b :: List.orderedInsert jobLe a t := by
          rw [List.orderedInsert, if_neg hab]
        rw [hred]
        by_cases hap : a.priority = p
        · have hbp : ¬b.priority = p := by
            intro hbp
            exact hab (by
              show priorityOrder b.priority ≤ priorityOrder a.priority
              rw [hap, hbp])
          simp [List.filter_cons, hap, hbp, ih]
        · simp [List.filter_cons, hap, ih]

/-- The queue sort is stable: each priority tier of the sorted queue is
exactly that tier of the unsorted queue, in the same order. -/
theorem filter_sortQueue (p : Priority) (l : List Job) :
    (sortQueue l).filter (fun j => decide (j.priority = p)) =
      l.filter (fun j => decide (j.priority = p)) := by
  induction l with
  | nil => rfl
  | cons a t ih =>
      show (List.orderedInsert jobLe a (List.insertionSort jobLe t)).filter _ = _
      rw [filter_orderedInsert p a (List.insertionSort jobLe t)]
      simp only [List.filter_cons]
      rw [show List.insertionSort jobLe t = sortQueue t from rfl, ih]

/-- Sorting an already sorted queue changes nothing, so repeated sorts of an
unchanged pending collection are deterministic. -/
theorem sortQueue_idem (l : List Job) : sortQueue (sortQueue l) = sortQueue l :=
  List.Sorted.insertionSort_eq (List.sorted_insertionSort jobLe l)

/-- In a strictly increasing list, two members in increasing order appear as a
sublist in that order. -/
theorem pairwise_lt_sublist {l : List Nat} (hp : l.Pairwise (· < ·))
    {i1 i2 : Nat} (h1 : i1 ∈ l) (h2 : i2 ∈ l) (hlt : i1 < i2) :
    List.Sublist [i1, i2] l := by
  induction l with
  | nil => cases h1
  | cons a t ih =>
      rcases List.mem_cons.mp h1 with e1 | m1
      · subst e1
        rcases List.mem_cons.mp h2 with e2 | m2
        · exact absurd hlt (by rw [e2]; exact lt_irrefl _)
        · exact List.Sublist.cons₂ _ (List.singleton_sublist.mpr m2)
      · rcases List.mem_cons.mp h2 with e2 | m2
        · subst e2
          have := (List.pairwise_cons.mp hp).1 i1 m1
          omega
        · exact List.Sublist.cons _ (ih (List.pairwise_cons.mp hp).2 m1 m2)

/-- Supported operations pass the collaborator outcome through, so a routine
rejection surfaces verbatim as the executeJob error. -/
theorem executeJob_error_of_supported (j : Job) (e : String)
    (h : callsCollaborator j = true) :
    executeJob j (.error e) = .error e := by
  unfold callsCollaborator at h
  cases hjt : j.jobType with
  | image =>
      rw [hjt] at h
      simp only [decide_eq_true_eq, Bool.or_eq_true] at h
      rcases h with h1 | h1 | h1 <;>
        simp [executeJob, hjt, processImageJob, h1]
  | document =>
      rw [hjt] at h
      simp only [decide_eq_true_eq, Bool.or_eq_true] at h
      rcases h with h1 | h1 <;>
        simp [executeJob, hjt, processDocumentJob, h1]
  | media =>
      rw [hjt] at h
      simp only [decide_eq_true_eq] at h
      simp [executeJob, hjt, processMediaJob, h]

/-- Unknown combinations reject with the descriptive default-arm message, for
every collaborator outcome: the error is determined without consulting the
collaborator. -/
theorem executeJob_error_of_unsupported (j : Job)
    (h : callsCollaborator j = false) (c : Except String Nat) :
    executeJob j c = .error (unsupportedMessage j) := by
  unfold callsCollaborator at h
  cases hjt : j.jobType with
  | image =>
      rw [hjt] at h
      simp only [decide_eq_false_iff_not] at h
      push_neg at h
      simp [executeJob, hjt, processImageJob, unsupportedMessage,
        h.1, h.2.1, h.2.2]
  | document =>
      rw [hjt] at h
      simp only [decide_eq_false_iff_not] at h
      push_neg at h
      simp [executeJob, hjt, processDocumentJob, unsupportedMessage, h.1, h.2]
  | media =>
      rw [hjt] at h
      simp only [decide_eq_false_iff_not] at h
      simp [executeJob, hjt, processMediaJob, unsupportedMessage, h]

end FileProcAPI

namespace FileProcAPI

/-- At most one job record is ever in processing status: pending jobs are
queued, settled jobs are terminal, and only the job the loop is awaiting is
processing. -/
theorem processingCount_le_one (s : QueueState) (h : Inv s) :
    processingCount s ≤ 1 := by
  unfold processingCount allJobs
  rw [List.countP_append, List.countP_append]
  have hq0 :
      s.queue.countP (fun j => decide (j.status = Status.processing)) = 0 := by
    rw [List.countP_eq_zero]
    intro j hj
    simp [h.queue_queued j hj]
  have hd0 :
      s.done.countP (fun j => decide (j.status = Status.processing)) = 0 := by
    rw [List.countP_eq_zero]
    intro j hj
    rcases h.done_terminal j hj with h1 | h1 <;> simp [h1]
  rw [hq0, hd0]
  cases hcur : s.current with
  | none => simp
  | some j =>
      simp only [Option.toList_some, List.countP_cons, List.countP_nil]
      split <;> omega

end FileProcAPI

namespace FileProcAPI

/-- C1: the claim states that after submitting N = 3 jobs against the
constructed ceiling C = 2, the dispatch triggered by the third submission
leaves exactly 2 jobs in processing status and 1 queued, the loop starting
each eligible job without waiting for the previous one.  Evaluating the code
at this failing input shows the opposite: the dispatch loop awaits each job
before shifting the next, so exactly 1 job is processing and 2 remain queued. -/
theorem c1_sequential_dispatch_at_failing_input :
    (run c1Trace).maxConcurrent = 2 ∧
    processingCount (run c1Trace) = 1 ∧
    (run c1Trace).queue.length = 2 ∧
    (run c1Trace).activeJobs = 1 ∧
    (run c1Trace).queue.countP (fun j => decide (j.status = Status.queued)) =
      2 := by
  decide

/-- C2 counterexample: the claim states that getJobStatus reports status
queued immediately after addJob returns, and never reports not found before
explicit removal.  On the code, submitting one job to the idle queue
dispatches it synchronously inside addJob (shifting it out of the pending
collection that getJobStatus searches), so immediately after addJob returns
the lookup already reports not found even though the job is processing. -/
theorem c2_counterexample :
    getJobStatus (run c2Trace) 0 = StatusReport.notFound ∧
    (run c2Trace).current = some imgResizeStart :=
  ⟨rfl, rfl⟩

/-- C2 amended: getJobStatus finds a job exactly while it is still in the
pending collection, and any snapshot it returns carries status queued; a job
that dispatch has picked up (which can happen synchronously during addJob when
the dispatcher is idle) or that has settled reports not found. -/
theorem c2_amended (s : QueueState) (hs : Reachable s) (jid : Nat) :
    (getJobStatus s jid = StatusReport.notFound ↔
      ∀ j ∈ s.queue, j.id ≠ jid) ∧
    (∀ i st op er re,
        getJobStatus s jid = StatusReport.report i st op er re →
        st = Status.queued) := by
  have h := inv_reachable s hs
  unfold getJobStatus
  cases hf : s.queue.find? (fun j => j.id == jid) with
  | none =>
      refine ⟨iff_of_true rfl ?_, ?_⟩
      · intro j hj
        simpa using List.find?_eq_none.mp hf j hj
      · intro i st op er re hrep
        cases hrep
  | some j0 =>
      have hmem : j0 ∈ s.queue := List.mem_of_find?_eq_some hf
      have hid : j0.id = jid := by simpa using List.find?_some hf
      refine ⟨⟨fun hx => (nomatch hx), fun hall => absurd hid (hall j0 hmem)⟩, ?_⟩
      intro i st op er re hrep
      injection hrep with h1 h2 h3 h4 h5
      rw [← h2]
      exact h.queue_queued j0 hmem

/-- C2 amended, witness at a concrete reachable state. -/
theorem c2_amended_witness :
    (getJobStatus (run c2Trace) 0 = StatusReport.notFound ↔
      ∀ j ∈ (run c2Trace).queue, j.id ≠ 0) ∧
    (∀ i st op er re,
        getJobStatus (run c2Trace) 0 = StatusReport.report i st op er re →
        st = Status.queued) :=
  c2_amended (run c2Trace) ⟨c2Trace, rfl⟩ 0

/-- C3: the claim states that whenever dispatch runs with free capacity, a
pending high priority job is dispatched strictly before every still-pending
normal or low priority job.  Evaluating the code at this failing input
refutes it: after submitting normal jobs 0 and 1 and high job 2, the
settlement of job 0 dispatches normal job 1 while high job 2 is still pending
with free capacity, because the priority sort runs only at the entry of
processNext and the loop continuation shifts the queue head unsorted. -/
theorem c3_priority_ignored_at_failing_input :
    (run c3TracePrefix).queue = [jobNormal1Queued, jobHigh2Queued] ∧
    (run c3TracePrefix).current = some imgResizeStart ∧
    (run c3Trace).dispatched = [0, 1] ∧
    (run c3Trace).current = some jobNormal1Processing ∧
    (run c3Trace).queue = [jobHigh2Queued] :=
  ⟨rfl, rfl, rfl, rfl, rfl⟩

/-- C4: for every reachable state, the number of job records in processing
status is at most the configured concurrency ceiling maxConcurrent. -/
theorem c4_processing_never_exceeds_ceiling (s : QueueState)
    (hs : Reachable s) : processingCount s ≤ s.maxConcurrent := by
  have h := inv_reachable s hs
  have hle := processingCount_le_one s h
  rw [h.maxc]
  omega

/-- C4, witness at a concrete reachable state. -/
theorem c4_witness :
    processingCount (run c1Trace) ≤ (run c1Trace).maxConcurrent :=
  c4_processing_never_exceeds_ceiling (run c1Trace) ⟨c1Trace, rfl⟩

/-- C5: jobs of equal priority are dispatched in submission order (ids are
assigned by an increasing counter at submission, so smaller id means earlier
submission, and the dispatched list records dispatch order); the queue sort is
stable (each priority tier is preserved as a subsequence in submission order);
repeated sorts of an unchanged pending collection are deterministic
(idempotent); and the comparator ordering is total. -/
theorem c5_fifo_within_tier (s : QueueState) (hs : Reachable s) :
    (∀ j1 j2 : Job, j1.priority = j2.priority →
        j1.id ∈ s.dispatched → j2.id ∈ s.dispatched → j1.id < j2.id →
        List.Sublist [j1.id, j2.id] s.dispatched) ∧
    (∀ (l : List Job) (p : Priority),
        (sortQueue l).filter (fun j => decide (j.priority = p)) =
          l.filter (fun j => decide (j.priority = p))) ∧
    (∀ l : List Job, sortQueue (sortQueue l) = sortQueue l) ∧
    (∀ a b : Job, jobLe a b ∨ jobLe b a) := by
  have h := inv_reachable s hs
  refine ⟨?_, fun l p => filter_sortQueue p l, sortQueue_idem,
    fun a b => total_of jobLe a b⟩
  intro j1 j2 _ h1 h2 hlt
  exact pairwise_lt_sublist h.disp_pairwise h1 h2 hlt

/-- C5, witness: the two equal-priority jobs of c3Trace were dispatched in
submission order. -/
theorem c5_witness :
    List.Sublist [imgResizeStart.id, jobNormal1Queued.id]
      (run c3Trace).dispatched :=
  (c5_fifo_within_tier (run c3Trace) ⟨c3Trace, rfl⟩).1 imgResizeStart
    jobNormal1Queued rfl (by decide) (by decide) (by decide)

end FileProcAPI

namespace FileProcAPI

/-- C6: for every job whose category and operation combination is unknown to
the execution switches (no collaborator routine matches it), execution fails
fast: executeJob returns, for every collaborator outcome, the descriptive
error naming the category and the unsupported operation, so the error is
determined without consulting any collaborator; dispatching such a job records
no collaborator call; every record addJob builds starts queued; and in every
reachable state in which dispatch has started such a job, the job is in
processing status and any settlement stores it failed with that error message
and no result. -/
theorem c6_unknown_combination_fails_fast (j : Job)
    (hunk : callsCollaborator j = false) :
    (∀ c : Except String Nat,
        executeJob j c = .error (unsupportedMessage j)) ∧
    (∀ (s : QueueState) (rest : List Job),
        (startJob s j rest).collabCalls = s.collabCalls) ∧
    (∀ (s : QueueState) (t : Category) (op : String) (p : Option Priority),
        (pushedJob s t op p).status = Status.queued) ∧
    (∀ s : QueueState, Reachable s → s.current = some j →
        j.status = Status.processing ∧
        ∀ c : Except String Nat,
          (settle s c).done = settledJob j c :: s.done ∧
          (settledJob j c).status = Status.failed ∧
          (settledJob j c).error = some (unsupportedMessage j) ∧
          (settledJob j c).result = none) := by
  refine ⟨executeJob_error_of_unsupported j hunk, ?_, fun _ _ _ _ => rfl, ?_⟩
  · intro s rest
    simp [startJob, hunk]
  · intro s hs hcur
    have h := inv_reachable s hs
    refine ⟨h.current_proc j hcur, ?_⟩
    intro c
    have hsj : settledJob j c =
        { j with status := Status.failed,
                 error := some (unsupportedMessage j) } := by
      unfold settledJob
      rw [executeJob_error_of_unsupported j hunk c]
    have hact : s.activeJobs = 1 := by
      rw [h.active_one, hcur]
      rfl
    have hha : s.activeJobs - 1 < s.maxConcurrent := by
      rw [hact, h.maxc]
      omega
    refine ⟨?_, by rw [hsj], by rw [hsj], ?_⟩
    · cases hq : s.queue with
      | nil => rw [settle_some_nil s c j hcur hq]
      | cons j2 rest =>
          rw [settle_some_cons s c j j2 rest hcur hq hha]
          rfl
    · rw [hsj]
      exact (h.current_fresh j hcur).1

/-- C6, witness at the concrete unknown combination document plus resize. -/
theorem c6_witness :
    executeJob docResizeStart (Except.ok 7) =
      .error (unsupportedMessage docResizeStart) ∧
    (run docResizeTrace).current = some docResizeStart ∧
    (settle (run docResizeTrace) (Except.ok 7)).done =
      settledJob docResizeStart (Except.ok 7) :: (run docResizeTrace).done ∧
    (settledJob docResizeStart (Except.ok 7)).status = Status.failed ∧
    (settledJob docResizeStart (Except.ok 7)).error =
      some (unsupportedMessage docResizeStart) ∧
    (settledJob docResizeStart (Except.ok 7)).result = none := by
  have H := c6_unknown_combination_fails_fast docResizeStart rfl
  have H4 := (H.2.2.2 (run docResizeTrace) ⟨docResizeTrace, rfl⟩ rfl).2
    (Except.ok 7)
  exact ⟨H.1 (Except.ok 7), rfl, H4.1, H4.2.1, H4.2.2.1, H4.2.2.2⟩

/-- C7: removeJob removes and returns a job exactly when a job with that id is
still in the pending collection, in which case the removed job has status
queued; on a miss it returns null and leaves the state untouched; the active
job count and the current job are never altered; and the id of the currently
executing job or of a settled job is never found in the pending collection, so
removing such a job reports not found. -/
theorem c7_remove_only_pending (s : QueueState) (hs : Reachable s)
    (jid : Nat) :
    ((removeJob s jid).2 = none ↔ ∀ j ∈ s.queue, j.id ≠ jid) ∧
    (∀ j, (removeJob s jid).2 = some j →
        j ∈ s.queue ∧ j.status = Status.queued) ∧
    ((removeJob s jid).2 = none → (removeJob s jid).1 = s) ∧
    (removeJob s jid).1.activeJobs = s.activeJobs ∧
    (removeJob s jid).1.current = s.current ∧
    (∀ j, s.current = some j → j.id = jid → (removeJob s jid).2 = none) ∧
    (∀ j ∈ s.done, j.id = jid → (removeJob s jid).2 = none) := by
  have h := inv_reachable s hs
  have hdisp : ∀ i, i ∈ s.dispatched → ∀ k, k ∈ s.queue → k.id ≠ i :=
    fun i hi k hk => Nat.ne_of_gt (h.disp_lt_queue i hi k hk)
  unfold removeJob
  cases hf : s.queue.find? (fun j => j.id == jid) with
  | none =>
      have hnone : ∀ j ∈ s.queue, j.id ≠ jid := by
        intro j hj
        simpa using List.find?_eq_none.mp hf j hj
      exact ⟨iff_of_true rfl hnone, fun j hj => (nomatch hj), fun _ => rfl,
        rfl, rfl, fun _ _ _ => rfl, fun _ _ _ => rfl⟩
  | some j0 =>
      have hmem : j0 ∈ s.queue := List.mem_of_find?_eq_some hf
      have hid : j0.id = jid := by simpa using List.find?_some hf
      refine ⟨⟨fun hx => (nomatch hx), fun hall => absurd hid (hall j0 hmem)⟩,
        ?_, fun hx => (nomatch hx), rfl, rfl, ?_, ?_⟩
      · intro j hj
        injection hj with hj
        subst hj
        exact ⟨hmem, h.queue_queued j0 hmem⟩
      · intro j hcur hjid
        exfalso
        exact hdisp j.id (h.current_disp j hcur) j0 hmem (by rw [hid, hjid])
      · intro j hjdone hjid
        exfalso
        exact hdisp j.id (h.done_disp j hjdone) j0 hmem (by rw [hid, hjid])

/-- C7, witness at a concrete reachable state with one pending job. -/
theorem c7_witness :
    ((removeJob (run twoJobsTrace) 1).2 = none ↔
      ∀ j ∈ (run twoJobsTrace).queue, j.id ≠ 1) ∧
    (removeJob (run twoJobsTrace) 1).1.activeJobs =
      (run twoJobsTrace).activeJobs :=
  ⟨(c7_remove_only_pending (run twoJobsTrace) ⟨twoJobsTrace, rfl⟩ 1).1,
   (c7_remove_only_pending (run twoJobsTrace) ⟨twoJobsTrace, rfl⟩ 1).2.2.2.1⟩

/-- C8: clearQueue empties the pending collection and returns exactly the
number of pending jobs discarded; the active job count, the currently
executing job, the processing flag and the settled records are untouched, and
a currently executing job still settles to a terminal status afterwards. -/
theorem c8_clear_only_pending (s : QueueState) :
    (clearQueue s).2 = s.queue.length ∧
    (clearQueue s).1.queue = [] ∧
    (clearQueue s).1.activeJobs = s.activeJobs ∧
    (clearQueue s).1.current = s.current ∧
    (clearQueue s).1.processing = s.processing ∧
    (clearQueue s).1.done = s.done ∧
    (clearQueue s).1.maxConcurrent = s.maxConcurrent ∧
    (∀ (j : Job) (c : Except String Nat), s.current = some j →
        (settle (clearQueue s).1 c).done = settledJob j c :: s.done ∧
        ((settledJob j c).status = Status.completed ∨
          (settledJob j c).status = Status.failed)) := by
  refine ⟨rfl, rfl, rfl, rfl, rfl, rfl, rfl, ?_⟩
  intro j c hcur
  rw [settle_some_nil (clearQueue s).1 c j hcur rfl]
  exact ⟨rfl, settledJob_status j c⟩

/-- C8, witness at a concrete state with an executing job. -/
theorem c8_witness :
    (settle (clearQueue (run c2Trace)).1 (Except.ok 5)).done =
      settledJob imgResizeStart (Except.ok 5) :: (run c2Trace).done ∧
    ((settledJob imgResizeStart (Except.ok 5)).status = Status.completed ∨
      (settledJob imgResizeStart (Except.ok 5)).status = Status.failed) :=
  (c8_clear_only_pending (run c2Trace)).2.2.2.2.2.2.2 imgResizeStart
    (Except.ok 5) rfl

/-- C9: when the operation routine of the currently executing job rejects with
an error message, the job settles as failed carrying that message verbatim and
no result; the failed job never reappears in the pending collection (no
retry); and the dispatch loop is not aborted: with jobs still queued it
immediately starts the next one (a different job), and with an empty queue it
exits cleanly. -/
theorem c9_execution_error_local (s : QueueState) (hs : Reachable s)
    (j : Job) (e : String) (hcur : s.current = some j)
    (hsup : callsCollaborator j = true) :
    (settledJob j (.error e)).status = Status.failed ∧
    (settledJob j (.error e)).error = some e ∧
    (settledJob j (.error e)).result = none ∧
    (settle s (.error e)).done = settledJob j (.error e) :: s.done ∧
    (∀ k ∈ s.queue, k.id ≠ j.id) ∧
    (∀ j2 rest, s.queue = j2 :: rest →
        (settle s (.error e)).current =
          some { j2 with status := Status.processing } ∧
        (settle s (.error e)).queue = rest ∧
        (settle s (.error e)).dispatched = s.dispatched ++ [j2.id] ∧
        (settle s (.error e)).processing = true ∧
        j2.id ≠ j.id) ∧
    (s.queue = [] →
        (settle s (.error e)).processing = false ∧
        (settle s (.error e)).current = none) := by
  have h := inv_reachable s hs
  have hexec := executeJob_error_of_supported j e hsup
  have hsj : settledJob j (.error e) =
      { j with status := Status.failed, error := some e } := by
    unfold settledJob
    rw [hexec]
  have hfresh := h.current_fresh j hcur
  have hact : s.activeJobs = 1 := by
    rw [h.active_one, hcur]
    rfl
  have hha : s.activeJobs - 1 < s.maxConcurrent := by
    rw [hact, h.maxc]
    omega
  have hnotq : ∀ k ∈ s.queue, k.id ≠ j.id :=
    fun k hk =>
      Nat.ne_of_gt (h.disp_lt_queue j.id (h.current_disp j hcur) k hk)
  refine ⟨by rw [hsj], by rw [hsj], ?_, ?_, hnotq, ?_, ?_⟩
  · rw [hsj]
    exact hfresh.1
  · cases hq : s.queue with
    | nil => rw [settle_some_nil s (.error e) j hcur hq]
    | cons j2 rest =>
        rw [settle_some_cons s (.error e) j j2 rest hcur hq hha]
        rfl
  · intro j2 rest hq
    rw [settle_some_cons s (.error e) j j2 rest hcur hq hha]
    have hj2 : j2 ∈ s.queue := by
      rw [hq]
      exact List.mem_cons_self _ _
    refine ⟨rfl, rfl, rfl, ?_, hnotq j2 hj2⟩
    show s.processing = true
    rw [h.flag_current, hcur]
    rfl
  · intro hq
    rw [settle_some_nil s (.error e) j hcur hq]
    exact ⟨rfl, rfl⟩

/-- C9, witness: the first job of a two-job run rejects, settles failed with
the message verbatim, and the second job is dispatched right away. -/
theorem c9_witness :
    (settledJob imgResizeStart (Except.error "disk failure")).status =
      Status.failed ∧
    (settledJob imgResizeStart (Except.error "disk failure")).error =
      some "disk failure" ∧
    (settle (run twoJobsTrace) (Except.error "disk failure")).current =
      some { jobNormal1Queued with status := Status.processing } := by
  have H := c9_execution_error_local (run twoJobsTrace)
    ⟨twoJobsTrace, rfl⟩ imgResizeStart "disk failure" rfl rfl
  exact ⟨H.1, H.2.1, (H.2.2.2.2.2.1 jobNormal1Queued [] rfl).1⟩

/-- C10: in every reachable state at most one job is actually executing: the
active job count never exceeds 1 and at most one job record is in processing
status, even though the configured ceiling maxConcurrent is 2, because the
dispatch loop awaits each job before shifting the next and the processing
flag prevents a second concurrent dispatch loop. -/
theorem c10_strictly_sequential (s : QueueState) (hs : Reachable s) :
    s.activeJobs ≤ 1 ∧ processingCount s ≤ 1 ∧ s.maxConcurrent = 2 := by
  have h := inv_reachable s hs
  refine ⟨?_, processingCount_le_one s h, h.maxc⟩
  rw [h.active_one]
  split <;> omega

/-- C10, witness at a concrete reachable state. -/
theorem c10_witness :
    (run twoJobsTrace).activeJobs ≤ 1 ∧
    processingCount (run twoJobsTrace) ≤ 1 ∧
    (run twoJobsTrace).maxConcurrent = 2 :=
  c10_strictly_sequential (run twoJobsTrace) ⟨twoJobsTrace, rfl⟩

end FileProcAPI
